import Mathlib

/-!
# frappe-chart: workflow diagram pipeline

A shallow embedding of `main.go`: the role grouping loop of `main`, the
renderer `createDiagram`, the menu prompt `selectWorkflow` and the token
encoder `encodeKroki`, with the properties of the specification stated and
settled against these definitions.

Conventions of the embedding.

* A Go `string` is a Lean `String`; `fmt.Sprintf` with `%s` verbs is string
  concatenation, and `strings.Builder.WriteString` appends to the text built so
  far.
* A Go `map[K]V` is a `GoMap K V`: the list of its entries, one per key.
  `m[k]` on a missing key is the zero value of `V`.  A `range` over a map visits
  the entries in an order Go leaves unspecified, so a function that ranges over
  a map receives the entries as a list in the order in which `range` visits
  them, and the order is any rearrangement of the entries.
* A byte is a `UInt8` and a byte sequence a `List UInt8`; the arithmetic on
  bytes is done on their values as natural numbers.
* The packages `compress/zlib` and `encoding/base64` belong to the Go standard
  library.  The base64 encoder is written out here after the library; the
  compressor is a parameter of `encodeKroki`, the record `Zlib`, and nothing is
  assumed of it.
-/

namespace FrappeChart

set_option autoImplicit false

/-! ## Data model -/

/-- One element of `Workflow.Docs[i].States`. -/
structure StateRec where
  State : String
  AllowEdit : String
  deriving DecidableEq

/-- One element of `Workflow.Docs[i].Transitions`. -/
structure TransitionRec where
  State : String
  Action : String
  NextState : String
  Allowed : String
  deriving DecidableEq

/-- One element of `Workflow.Docs`. -/
structure Doc where
  Name : String
  States : List StateRec
  Transitions : List TransitionRec
  deriving DecidableEq

/-- The Go type `Workflow`. -/
structure Workflow where
  Docs : List Doc
  deriving DecidableEq

/-- The Go type `Transition`. -/
structure Transition where
  From : String
  To : String
  Action : String
  deriving DecidableEq

/-! ## Go maps -/

/-- A Go map as the list of its entries. -/
abbrev GoMap (K V : Type) := List (K × V)

namespace GoMap

variable {K V : Type} [DecidableEq K]

/-- The Go expression `m[k]`, with `zero` the zero value of the element type. -/
def get (zero : V) : GoMap K V → K → V
  | [], _ => zero
  | (k', v) :: rest, k => if k' = k then v else get zero rest k

/-- The Go statement `m[k] = v`: replaces the entry of `k`, or adds one. -/
def set : GoMap K V → K → V → GoMap K V
  | [], k, v => [(k, v)]
  | (k', v') :: rest, k, v => if k' = k then (k', v) :: rest else (k', v') :: set rest k v

/-- The keys of the map. -/
def keys (m : GoMap K V) : List K := m.map Prod.fst

end GoMap

/-! ## The grouping loop of `main` (lines 80-104) -/

/-- The inner loop over `w.States` (lines 87-92). -/
def groupStates (roleStateMap : GoMap String (List String)) (states : List StateRec) :
    GoMap String (List String) :=
  states.foldl
    (fun m s =>
      let role := s.AllowEdit
      let state := s.State
      GoMap.set m role (GoMap.get [] m role ++ [state]))
    roleStateMap

/-- The inner loop over `w.Transitions` (lines 96-103). -/
def groupTransitions (roleTransitionMap : GoMap String (List Transition))
    (transitions : List TransitionRec) : GoMap String (List Transition) :=
  transitions.foldl
    (fun m t =>
      let role := t.Allowed
      let fromState := t.State
      let toState := t.NextState
      let action := t.Action
      GoMap.set m role
        (GoMap.get [] m role ++ [{ From := fromState, To := toState, Action := action }]))
    roleTransitionMap

/-- The loop over `workflow.Docs` (lines 80-104), returning
`(roleStateMap, roleTransitionMap)`. -/
def groupByRole (workflow : Workflow) :
    GoMap String (List String) × GoMap String (List Transition) :=
  workflow.Docs.foldl
    (fun acc w => (groupStates acc.1 w.States, groupTransitions acc.2 w.Transitions))
    ([], [])

/-- The loop over the docs, started from any pair of maps. -/
def groupFrom (acc : GoMap String (List String) × GoMap String (List Transition))
    (docs : List Doc) : GoMap String (List String) × GoMap String (List Transition) :=
  docs.foldl
    (fun acc w => (groupStates acc.1 w.States, groupTransitions acc.2 w.Transitions)) acc

/-- The state records of a workflow document, over all its docs, in document order. -/
def stateRecords (workflow : Workflow) : List StateRec := workflow.Docs.flatMap (·.States)

/-- The transition records of a workflow document, over all its docs, in document order. -/
def transitionRecords (workflow : Workflow) : List TransitionRec :=
  workflow.Docs.flatMap (·.Transitions)

/-! ## `createDiagram` (lines 117-142) -/

/-- The text `fmt.Sprintf("lane \"%s\" {\n", k)`. -/
def laneLine (k : String) : String := "lane \"" ++ k ++ "\" \x7b\n"

/-- The text `fmt.Sprintf("\t\"%s\"\n", s)`. -/
def statLine (s : String) : String := "\t\"" ++ s ++ "\"\n"

/-- The text `fmt.Sprintf("\t\"%s\" -> \"%s\" [label = \"%s\"]\n", t.From, t.To, t.Action)`. -/
def transLine (t : Transition) : String :=
  "\t\"" ++ t.From ++ "\" -> \"" ++ t.To ++ "\" [label = \"" ++ t.Action ++ "\"]\n"

/-- The function `createDiagram`.  Each map is given as its entries in the order
in which the `range` over it visits them. -/
def createDiagram (stateMap : GoMap String (List String))
    (transMap : GoMap String (List Transition)) : String :=
  let str := ""
  let str := str ++ "actdiag \x7b\n"
  let str := stateMap.foldl
    (fun str kv =>
      let lane := laneLine kv.1
      let str := str ++ lane
      let str := kv.2.foldl (fun str s => str ++ statLine s) str
      str ++ "\x7d\n")
    str
  let str := transMap.foldl
    (fun str kv => kv.2.foldl (fun str t => str ++ transLine t) str)
    str
  let str := str ++ "\x7d"
  str

/-- The text that one pass of the loop over `stateMap` writes: the lane line, the
state lines, the closing line. -/
def laneBlock (kv : String × List String) : String :=
  (kv.2.foldl (fun str s => str ++ statLine s) (laneLine kv.1)) ++ "\x7d\n"

/-- The text that one pass of the loop over `transMap` writes. -/
def transGroup (kv : String × List Transition) : String :=
  kv.2.foldl (fun str t => str ++ transLine t) ""

/-- The texts of a list written one after the other. -/
def concat (parts : List String) : String := parts.foldl (fun str x => str ++ x) ""

/-- A diagram text put together from lane blocks and transition groups. -/
def assemble (blocks groups : List String) : String :=
  "actdiag \x7b\n" ++ concat blocks ++ concat groups ++ "\x7d"

/-! ## `selectWorkflow` (lines 144-157) -/

/-- The value of `input` after `var input int` and `fmt.Scanf("%d \n", &input)`.
The entry is what stands on standard input for this scan: `some n` when it is
the integer `n`, `none` when it is no integer or the input is at its end.  The
scan stores an integer that fits the 64 bits of an `int`; otherwise it fails and
`input` keeps its zero value. -/
def scanInput (entry : Option Int) : Int :=
  match entry with
  | some n => if -9223372036854775808 ≤ n ∧ n ≤ 9223372036854775807 then n else 0
  | none => 0

/-- The function `selectWorkflow`.  The second argument is standard input, one
entry per scan; after the last entry the input is at its end and every scan
fails.  The result is the returned string, the entries left unread and the lines
printed, and `none` when the call does not return: at the end of the input with
no name at index 0 it calls itself without end. -/
def selectWorkflow (wfMap : GoMap Int String) :
    List (Option Int) → Option (String × List (Option Int) × List String)
  | [] =>
    let input := scanInput none
    if GoMap.get "" wfMap input = "" then none
    else
      let ret := GoMap.get "" wfMap input
      some (ret, [], [])
  | entry :: stdin =>
    let input := scanInput entry
    let ret := ""
    if GoMap.get "" wfMap input = "" then
      -- `selectWorkflow(wfMap)`: the value the call returns is not assigned
      match selectWorkflow wfMap stdin with
      | none => none
      | some (_, stdin', out) => some (ret, stdin', "Please enter a valid number" :: out)
    else
      let ret := GoMap.get "" wfMap input
      some (ret, stdin, [])

/-- The menu `wfMap` that `main` builds from the slice `workflows` (lines 69-75). -/
def menuOf (workflows : List String) : GoMap Int String :=
  workflows.enum.foldl (fun wfMap kv => GoMap.set wfMap (kv.1 : Int) kv.2) []

/-! ## `encodeKroki` (lines 232-245) -/

/-- The part of the package `compress/zlib` that the program uses.
`compress level p` is the content of the underlying buffer after
`NewWriterLevel(&buffer, level)`, one `Write(p)` and `Close()`. -/
structure Zlib where
  compress : Int → List UInt8 → List UInt8

/-- The level check of `zlib.NewWriterLevel`: the levels are `HuffmanOnly = -2`
to `BestCompression = 9`. -/
def zlibNewWriterLevel (level : Int) : Except String Int :=
  if level < -2 ∨ level > 9 then .error ("zlib: invalid compression level: " ++ toString level)
  else .ok level

/-- The alphabet of `base64.URLEncoding`. -/
def encodeURL : List Char :=
  "ABCDEFGHIJKLMNOPQRSTUVWXYZabcdefghijklmnopqrstuvwxyz0123456789-_".data

/-- The table lookup `enc.encode[i]` of `base64.URLEncoding`. -/
def encodeChar (i : Nat) : Char := encodeURL.getD i 'A'

/-- The padding character `base64.StdPadding`. -/
def padChar : Char := '='

/-- The function `base64.URLEncoding.EncodeToString`: three bytes become four
characters, and a last group of one or two bytes is padded to four. -/
def base64URLEncode : List UInt8 → List Char
  | [] => []
  | [a] =>
    let val := a.toNat * 65536
    [encodeChar (val / 262144 % 64), encodeChar (val / 4096 % 64), padChar, padChar]
  | [a, b] =>
    let val := a.toNat * 65536 + b.toNat * 256
    [encodeChar (val / 262144 % 64), encodeChar (val / 4096 % 64),
      encodeChar (val / 64 % 64), padChar]
  | a :: b :: c :: rest =>
    let val := a.toNat * 65536 + b.toNat * 256 + c.toNat
    encodeChar (val / 262144 % 64) :: encodeChar (val / 4096 % 64) ::
      encodeChar (val / 64 % 64) :: encodeChar (val % 64) :: base64URLEncode rest

/-- The bytes of a Go string: `[]byte(input)`. -/
def goBytes (input : String) : List UInt8 := input.toUTF8.data.toList

/-- The function `encodeKroki`.  The destination of the writer is a
`bytes.Buffer`, whose `Write` returns no error, so the `err` of
`writer.Write` is `nil`. -/
def encodeKroki (zlib : Zlib) (input : String) : Except String String :=
  match zlibNewWriterLevel 9 with
  | .error err => .error ("fail to create the writer: " ++ err)
  | .ok level =>
    let buffer := zlib.compress level (goBytes input)
    let result := String.mk (base64URLEncode buffer)
    .ok result

/-! ## Reading a token back -/

/-- The value of a character of the URL-safe alphabet. -/
def decodeChar (c : Char) : Option Nat :=
  let i := encodeURL.indexOf c
  if i < 64 then some i else none

/-- URL-safe base64 decoding with padding: four characters become three bytes,
and a last group that ends in one or two padding characters becomes two bytes
or one byte. -/
def base64URLDecode : List Char → Option (List UInt8)
  | [] => some []
  | c0 :: c1 :: c2 :: c3 :: rest =>
    if c3 = padChar then
      if rest ≠ [] then none
      else if c2 = padChar then
        match decodeChar c0, decodeChar c1 with
        | some s0, some s1 =>
          let val := s0 * 262144 + s1 * 4096
          some [UInt8.ofNat (val / 65536 % 256)]
        | _, _ => none
      else
        match decodeChar c0, decodeChar c1, decodeChar c2 with
        | some s0, some s1, some s2 =>
          let val := s0 * 262144 + s1 * 4096 + s2 * 64
          some [UInt8.ofNat (val / 65536 % 256), UInt8.ofNat (val / 256 % 256)]
        | _, _, _ => none
    else
      match decodeChar c0, decodeChar c1, decodeChar c2, decodeChar c3, base64URLDecode rest with
      | some s0, some s1, some s2, some s3, some bytes =>
        let val := s0 * 262144 + s1 * 4096 + s2 * 64 + s3
        some (UInt8.ofNat (val / 65536 % 256) :: UInt8.ofNat (val / 256 % 256) ::
          UInt8.ofNat (val % 256) :: bytes)
      | _, _, _, _, _ => none
  | _ => none

/-- Whether a character may stand in a URL path segment of a token: a letter, a
digit, `-`, `_`, or the padding `=`. -/
def isTokenChar (c : Char) : Bool :=
  ('A' ≤ c && c ≤ 'Z') || ('a' ≤ c && c ≤ 'z') || ('0' ≤ c && c ≤ '9') ||
    c = '-' || c = '_' || c = '='

/-! ## Lines of a rendered text -/

/-- The pieces of a text between its newline characters, as
`strings.Split(text, "\n")` returns them. -/
def splitLines : List Char → List (List Char)
  | [] => [[]]
  | c :: cs =>
    if c = '\n' then [] :: splitLines cs
    else
      match splitLines cs with
      | [] => [[c]]
      | l :: ls => (c :: l) :: ls

/-- The lines of a text. -/
def lines (text : String) : List String := (splitLines text.data).map String.mk

/-- The lines of a text made of pieces that each end in a newline. -/
def termLines (d : List Char) : List (List Char) := (splitLines d).dropLast

/-- A text that is empty or ends in a newline. -/
def Terminated (d : List Char) : Prop := d = [] ∨ ∃ body, d = body ++ ['\n']

/-- A line that opens a lane block: `lane "<role>" {`. -/
def isLaneOpen (l : String) : Bool :=
  "lane \"".data.isPrefixOf l.data && "\" \x7b".data.isSuffixOf l.data && decide (9 ≤ l.data.length)

/-- A state line: a tab, then a name in double quotes. -/
def isStateLine (l : String) : Bool :=
  "\t\"".data.isPrefixOf l.data && "\"".data.isSuffixOf l.data && decide (3 ≤ l.data.length)

/-- The rest of a text after the first occurrence of `pat` in it. -/
def afterFirst (pat : List Char) : List Char → Option (List Char)
  | [] => if pat = [] then some [] else none
  | c :: cs =>
    if pat.isPrefixOf (c :: cs) then some ((c :: cs).drop pat.length)
    else afterFirst pat cs

/-- A transition line: `<tab>"<from>" -> "<to>" [label = "<action>"]`. -/
def isTransitionLine (l : String) : Bool :=
  "\t\"".data.isPrefixOf l.data &&
    match afterFirst "\" -> \"".data (l.data.drop 2) with
    | none => false
    | some r =>
      match afterFirst "\" [label = \"".data r with
      | none => false
      | some r' => "\"]".data.isSuffixOf r'

/-- The number of roles of a view: the keys of `stateMap` or of `transMap`. -/
def roleCount (stateMap : GoMap String (List String))
    (transMap : GoMap String (List Transition)) : Nat :=
  (GoMap.keys stateMap ++ GoMap.keys transMap).dedup.length

/-- The number of lines of a text that open a lane block. -/
def laneCount (text : String) : Nat := (lines text).countP isLaneOpen

/-- The number of lane blocks in a list of lines, read from the top: a block is
opened by a line `lane "<role>" {` and closed by the next line `}`, with no other
opening line in between.  `inLane` tells whether a block is open. -/
def countLaneBlocks (inLane : Bool) : List String → Nat
  | [] => 0
  | l :: ls =>
    if isLaneOpen l then countLaneBlocks true ls
    else if l = "\x7d" then (if inLane then 1 else 0) + countLaneBlocks false ls
    else countLaneBlocks inLane ls

/-- The number of lane blocks of a text. -/
def laneBlockCount (text : String) : Nat := countLaneBlocks false (lines text)

/-- The number of state lines of a text. -/
def stateLineCount (text : String) : Nat := (lines text).countP isStateLine

/-- The number of transition lines of a text. -/
def transitionLineCount (text : String) : Nat := (lines text).countP isTransitionLine

/-- The line of a lane opening, without its newline. -/
def laneOpenText (k : String) : String := "lane \"" ++ k ++ "\" \x7b"

/-- The line of a state, without its newline. -/
def statLineText (s : String) : String := "\t\"" ++ s ++ "\""

/-- The line of a transition, without its newline. -/
def transLineText (t : Transition) : String :=
  "\t\"" ++ t.From ++ "\" -> \"" ++ t.To ++ "\" [label = \"" ++ t.Action ++ "\"]"

/-- A string without a newline character. -/
def oneLine (s : String) : Prop := '\n' ∉ s.data

instance (s : String) : Decidable (oneLine s) := by unfold oneLine; infer_instance

/-- No role, state name or transition field of the view has a newline character. -/
def viewOneLine (stateMap : GoMap String (List String))
    (transMap : GoMap String (List Transition)) : Prop :=
  (∀ kv ∈ stateMap, oneLine kv.1 ∧ ∀ s ∈ kv.2, oneLine s) ∧
  (∀ kv ∈ transMap, ∀ t ∈ kv.2, oneLine t.From ∧ oneLine t.To ∧ oneLine t.Action)

/-- The number of state names over all buckets. -/
def totalStates (stateMap : GoMap String (List String)) : Nat :=
  (stateMap.map fun kv => kv.2.length).sum

/-- The number of transitions over all buckets. -/
def totalTransitions (transMap : GoMap String (List Transition)) : Nat :=
  (transMap.map fun kv => kv.2.length).sum

/-! ## Go maps: reading after writing -/

theorem GoMap.get_set_self {K V : Type} [DecidableEq K] (zero : V) (m : GoMap K V) (k : K)
    (v : V) : GoMap.get zero (GoMap.set m k v) k = v := by
  induction m with
  | nil => simp [GoMap.set, GoMap.get]
  | cons e rest ih =>
    obtain ⟨k', v'⟩ := e
    by_cases h : k' = k
    · simp [GoMap.set, GoMap.get, h]
    · simp [GoMap.set, GoMap.get, h, ih]

theorem GoMap.get_set_ne {K V : Type} [DecidableEq K] (zero : V) (m : GoMap K V) (k k' : K)
    (v : V) (hne : k ≠ k') : GoMap.get zero (GoMap.set m k v) k' = GoMap.get zero m k' := by
  induction m with
  | nil => simp [GoMap.set, GoMap.get, hne]
  | cons e rest ih =>
    obtain ⟨k₀, v₀⟩ := e
    by_cases h : k₀ = k
    · subst h
      simp [GoMap.set, GoMap.get, hne]
    · by_cases h' : k₀ = k'
      · subst h'
        simp [GoMap.set, GoMap.get, h]
      · simp [GoMap.set, GoMap.get, h, h', ih]

theorem get_groupStates (m : GoMap String (List String)) (states : List StateRec) (r : String) :
    GoMap.get [] (groupStates m states) r =
      GoMap.get [] m r ++ (states.filter fun s => s.AllowEdit = r).map (·.State) := by
  induction states generalizing m with
  | nil => simp [groupStates]
  | cons s rest ih =>
    have hstep : groupStates m (s :: rest) =
        groupStates (GoMap.set m s.AllowEdit (GoMap.get [] m s.AllowEdit ++ [s.State])) rest := rfl
    rw [hstep, ih]
    by_cases h : s.AllowEdit = r
    · subst h
      simp [GoMap.get_set_self]
    · simp [GoMap.get_set_ne _ _ _ _ _ h, h]

theorem get_groupTransitions (m : GoMap String (List Transition))
    (transitions : List TransitionRec) (r : String) :
    GoMap.get [] (groupTransitions m transitions) r =
      GoMap.get [] m r ++ (transitions.filter fun t => t.Allowed = r).map
        (fun t => { From := t.State, To := t.NextState, Action := t.Action }) := by
  induction transitions generalizing m with
  | nil => simp [groupTransitions]
  | cons t rest ih =>
    have hstep : groupTransitions m (t :: rest) =
        groupTransitions (GoMap.set m t.Allowed (GoMap.get [] m t.Allowed ++
          [{ From := t.State, To := t.NextState, Action := t.Action }])) rest := rfl
    rw [hstep, ih]
    by_cases h : t.Allowed = r
    · subst h
      simp [GoMap.get_set_self]
    · simp [GoMap.get_set_ne _ _ _ _ _ h, h]

theorem get_groupFrom (acc : GoMap String (List String) × GoMap String (List Transition))
    (docs : List Doc) (r : String) :
    GoMap.get [] (groupFrom acc docs).1 r =
        GoMap.get [] acc.1 r ++
          ((docs.flatMap (·.States)).filter fun s => s.AllowEdit = r).map (·.State) ∧
      GoMap.get [] (groupFrom acc docs).2 r =
        GoMap.get [] acc.2 r ++
          ((docs.flatMap (·.Transitions)).filter fun t => t.Allowed = r).map
            (fun t => { From := t.State, To := t.NextState, Action := t.Action }) := by
  induction docs generalizing acc with
  | nil => simp [groupFrom]
  | cons w rest ih =>
    have hstep : groupFrom acc (w :: rest) =
        groupFrom (groupStates acc.1 w.States, groupTransitions acc.2 w.Transitions) rest := rfl
    rw [hstep]
    obtain ⟨h1, h2⟩ := ih (groupStates acc.1 w.States, groupTransitions acc.2 w.Transitions)
    rw [h1, h2]
    simp [get_groupStates, get_groupTransitions, List.flatMap_cons, List.filter_append]

/-- C2. Role grouping: after the grouping loop, for every role `r` (the empty
string included) `roleStateMap[r]` is the list of the state names of the state
records whose `allow_edit` is `r`, in document order with duplicates kept, and
`roleTransitionMap[r]` is the list of `(from, to, action)` of the transition
records whose allowed role is `r`, in document order. -/
theorem groupByRole_bucket (workflow : Workflow) (r : String) :
    GoMap.get [] (groupByRole workflow).1 r =
        ((stateRecords workflow).filter fun s => s.AllowEdit = r).map (·.State) ∧
      GoMap.get [] (groupByRole workflow).2 r =
        ((transitionRecords workflow).filter fun t => t.Allowed = r).map
          (fun t => { From := t.State, To := t.NextState, Action := t.Action }) := by
  have h := get_groupFrom ([], []) workflow.Docs r
  simpa [groupFrom, groupByRole, GoMap.get, stateRecords, transitionRecords] using h

theorem foldl_append_data {α : Type} (f : α → String) (l : List α) (init : String) :
    (l.foldl (fun str x => str ++ f x) init).data = init.data ++ l.flatMap fun x => (f x).data := by
  induction l generalizing init with
  | nil => simp
  | cons x rest ih => simp [ih, String.data_append, List.flatMap_cons]

theorem laneBlock_data (kv : String × List String) :
    (laneBlock kv).data =
      (laneLine kv.1).data ++ (kv.2.flatMap fun s => (statLine s).data) ++ "\x7d\n".data := by
  simp [laneBlock, foldl_append_data, String.data_append]

theorem transGroup_data (kv : String × List Transition) :
    (transGroup kv).data = kv.2.flatMap fun t => (transLine t).data := by
  simp [transGroup, foldl_append_data]

theorem foldl_laneBlock (stateMap : GoMap String (List String)) (init : String) :
    stateMap.foldl
      (fun str kv =>
        let lane := laneLine kv.1
        let str := str ++ lane
        let str := kv.2.foldl (fun str s => str ++ statLine s) str
        str ++ "\x7d\n") init =
      stateMap.foldl (fun str kv => str ++ laneBlock kv) init := by
  induction stateMap generalizing init with
  | nil => rfl
  | cons kv rest ih =>
    simp only [List.foldl_cons]
    rw [ih]
    congr 1
    apply String.ext
    simp [laneBlock_data, foldl_append_data, String.data_append]

theorem foldl_transGroup (transMap : GoMap String (List Transition)) (init : String) :
    transMap.foldl (fun str kv => kv.2.foldl (fun str t => str ++ transLine t) str) init =
      transMap.foldl (fun str kv => str ++ transGroup kv) init := by
  induction transMap generalizing init with
  | nil => rfl
  | cons kv rest ih =>
    simp only [List.foldl_cons]
    rw [ih]
    congr 1
    apply String.ext
    simp [transGroup_data, foldl_append_data, String.data_append]

/-- The text of `createDiagram`: the header, the lane blocks in the order of the
range over `stateMap`, the transition groups in the order of the range over
`transMap`, the footer. -/
theorem createDiagram_data (stateMap : GoMap String (List String))
    (transMap : GoMap String (List Transition)) :
    (createDiagram stateMap transMap).data =
      "actdiag \x7b\n".data ++ (stateMap.flatMap fun kv => (laneBlock kv).data) ++
        (transMap.flatMap fun kv => (transGroup kv).data) ++ "\x7d".data := by
  unfold createDiagram
  simp only [foldl_laneBlock, foldl_transGroup]
  simp [foldl_append_data, String.data_append]

/-- C8. Manager scenario: with `statesByRole = {"Manager": ["Draft", "Approved"]}`
and `transitionsByRole = {"Manager": [(Draft, Approved, approve)]}` the text is
the header, the lane block of `Manager` with the state lines `"Draft"` and
`"Approved"` in that order, the one transition line, and the footer. -/
theorem createDiagram_manager :
    createDiagram [("Manager", ["Draft", "Approved"])]
        [("Manager", [{ From := "Draft", To := "Approved", Action := "approve" }])] =
      "actdiag \x7b\nlane \"Manager\" \x7b\n\t\"Draft\"\n\t\"Approved\"\n\x7d\n\t\"Draft\" -> \"Approved\" [label = \"approve\"]\n\x7d" ∧
    lines (createDiagram [("Manager", ["Draft", "Approved"])]
        [("Manager", [{ From := "Draft", To := "Approved", Action := "approve" }])]) =
      ["actdiag \x7b", "lane \"Manager\" \x7b", "\t\"Draft\"", "\t\"Approved\"", "\x7d",
        "\t\"Draft\" -> \"Approved\" [label = \"approve\"]", "\x7d"] := by
  constructor <;> decide

/-- C9. Empty view: with both maps empty the text is the header immediately
followed by the footer. -/
theorem createDiagram_empty : createDiagram [] [] = "actdiag \x7b\n\x7d" := by
  decide

/-- C4. At the menu `{0: "Leave Approval"}` with the entries `7` then `0`, the
call prompts once again and reads the valid entry `0`, whose name is
`Leave Approval`, and returns the empty string. -/
theorem selectWorkflow_drops_retry :
    GoMap.get "" (menuOf ["Leave Approval"]) 7 = "" ∧
      GoMap.get "" (menuOf ["Leave Approval"]) 0 = "Leave Approval" ∧
      selectWorkflow (menuOf ["Leave Approval"]) [some 7, some 0] =
        some ("", [], ["Please enter a valid number"]) := by
  decide

/-! ## Lines -/

theorem splitLines_ne_nil (d : List Char) : splitLines d ≠ [] := by
  cases d with
  | nil => simp [splitLines]
  | cons c cs =>
    unfold splitLines
    split
    · simp
    · split <;> simp

/-- Splitting at a newline splits the list of lines. -/
theorem splitLines_append_newline (x b : List Char) :
    splitLines (x ++ '\n' :: b) = splitLines x ++ splitLines b := by
  induction x with
  | nil => simp [splitLines]
  | cons c cs ih =>
    by_cases hc : c = '\n'
    · simp [splitLines, hc, ih]
    · have hne := splitLines_ne_nil cs
      cases hs : splitLines cs with
      | nil => exact absurd hs hne
      | cons l ls =>
        rw [List.cons_append, splitLines, if_neg hc, ih, hs]
        simp [splitLines, hc, hs]

theorem splitLines_of_not_mem (x : List Char) (hx : '\n' ∉ x) : splitLines x = [x] := by
  induction x with
  | nil => simp [splitLines]
  | cons c cs ih =>
    simp only [List.mem_cons, not_or] at hx
    have hc : c ≠ '\n' := fun h => hx.1 h.symm
    simp [splitLines, hc, ih hx.2]

theorem splitLines_append_of_terminated (d rest : List Char) (hd : Terminated d) :
    splitLines (d ++ rest) = termLines d ++ splitLines rest := by
  rcases hd with rfl | ⟨body, rfl⟩
  · simp [termLines, splitLines]
  · have h1 : splitLines (body ++ ['\n'] ++ rest) = splitLines body ++ splitLines rest := by
      simpa using splitLines_append_newline body rest
    have h2 : splitLines (body ++ ['\n']) = splitLines body ++ [[]] := by
      simpa [splitLines] using splitLines_append_newline body []
    rw [h1, termLines, h2, List.dropLast_concat]

theorem Terminated.append {a b : List Char} (ha : Terminated a) (hb : Terminated b) :
    Terminated (a ++ b) := by
  rcases hb with rfl | ⟨body, rfl⟩
  · simpa using ha
  · exact Or.inr ⟨a ++ body, by simp⟩

theorem termLines_append {a b : List Char} (ha : Terminated a) :
    termLines (a ++ b) = termLines a ++ termLines b := by
  unfold termLines
  rw [splitLines_append_of_terminated a b ha, termLines]
  exact List.dropLast_append_of_ne_nil _ (splitLines_ne_nil b)

theorem Terminated.flatMap {α : Type} (f : α → List Char) (l : List α)
    (h : ∀ x ∈ l, Terminated (f x)) : Terminated (l.flatMap f) := by
  induction l with
  | nil => exact Or.inl rfl
  | cons x rest ih =>
    rw [List.flatMap_cons]
    exact (h x (List.mem_cons_self _ _)).append
      (ih fun y hy => h y (List.mem_cons_of_mem _ hy))

theorem termLines_flatMap {α : Type} (f : α → List Char) (l : List α)
    (h : ∀ x ∈ l, Terminated (f x)) :
    termLines (l.flatMap f) = l.flatMap fun x => termLines (f x) := by
  induction l with
  | nil => simp [termLines, splitLines]
  | cons x rest ih =>
    rw [List.flatMap_cons, List.flatMap_cons,
      termLines_append (h x (List.mem_cons_self _ _)),
      ih fun y hy => h y (List.mem_cons_of_mem _ hy)]

theorem terminated_statLine (s : String) : Terminated (statLine s).data :=
  Or.inr ⟨"\t\"".data ++ s.data ++ "\"".data, by simp [statLine, String.data_append]⟩

theorem terminated_transLine (t : Transition) : Terminated (transLine t).data :=
  Or.inr ⟨(transLineText t).data, by simp [transLine, transLineText, String.data_append]⟩

theorem terminated_laneBlock (kv : String × List String) : Terminated (laneBlock kv).data := by
  rw [laneBlock_data]
  exact Or.inr ⟨(laneLine kv.1).data ++ (kv.2.flatMap fun s => (statLine s).data) ++ ['\x7d'],
    by simp⟩

theorem terminated_transGroup (kv : String × List Transition) :
    Terminated (transGroup kv).data := by
  rw [transGroup_data]
  exact Terminated.flatMap _ _ fun t _ => terminated_transLine t

/-- The lines of the text of `createDiagram`, for any content of the names. -/
theorem splitLines_createDiagram (stateMap : GoMap String (List String))
    (transMap : GoMap String (List Transition)) :
    splitLines (createDiagram stateMap transMap).data =
      ["actdiag \x7b".data] ++ (stateMap.flatMap fun kv => termLines (laneBlock kv).data) ++
        (transMap.flatMap fun kv => termLines (transGroup kv).data) ++ ["\x7d".data] := by
  have hh : Terminated "actdiag \x7b\n".data := Or.inr ⟨"actdiag \x7b".data, by decide⟩
  have hs : Terminated (stateMap.flatMap fun kv => (laneBlock kv).data) :=
    Terminated.flatMap _ _ fun kv _ => terminated_laneBlock kv
  have ht : Terminated (transMap.flatMap fun kv => (transGroup kv).data) :=
    Terminated.flatMap _ _ fun kv _ => terminated_transGroup kv
  rw [createDiagram_data, List.append_assoc, List.append_assoc,
    splitLines_append_of_terminated _ _ hh, splitLines_append_of_terminated _ _ hs,
    splitLines_append_of_terminated _ _ ht,
    termLines_flatMap _ _ fun kv _ => terminated_laneBlock kv,
    termLines_flatMap _ _ fun kv _ => terminated_transGroup kv]
  have h1 : termLines "actdiag \x7b\n".data = ["actdiag \x7b".data] := by decide
  have h2 : splitLines "\x7d".data = ["\x7d".data] := by decide
  rw [h1, h2]
  simp

theorem concat_data (parts : List String) : (concat parts).data = parts.flatMap String.data := by
  have h := foldl_append_data (fun x : String => x) parts ""
  simpa [concat] using h

/-- The text of `createDiagram` is the header, the lane blocks, the transition
groups and the footer, one after the other. -/
theorem createDiagram_eq_assemble (stateMap : GoMap String (List String))
    (transMap : GoMap String (List Transition)) :
    createDiagram stateMap transMap =
      assemble (stateMap.map laneBlock) (transMap.map transGroup) := by
  apply String.ext
  rw [createDiagram_data]
  simp [assemble, concat_data, String.data_append, List.flatMap_map]

/-- C10. The order of the two ranges changes the order of the text only: each
text is the header, the lane blocks of the entries of `stateMap` in the order of
its range, the transition groups of the entries of `transMap` in the order of
its range, and the footer; for two orders of the entries the lane blocks of the
one text are those of the other in another order, and so are the transition
groups; the two texts have the same length in characters and in bytes and the
same lines up to order; and when each map has at most one role the two texts
are equal. -/
theorem createDiagram_order (stateMap stateMap' : GoMap String (List String))
    (transMap transMap' : GoMap String (List Transition))
    (hs : stateMap.Perm stateMap') (ht : transMap.Perm transMap') :
    (createDiagram stateMap transMap =
          assemble (stateMap.map laneBlock) (transMap.map transGroup) ∧
        createDiagram stateMap' transMap' =
          assemble (stateMap'.map laneBlock) (transMap'.map transGroup) ∧
        (stateMap.map laneBlock).Perm (stateMap'.map laneBlock) ∧
        (transMap.map transGroup).Perm (transMap'.map transGroup)) ∧
      (createDiagram stateMap transMap).length = (createDiagram stateMap' transMap').length ∧
      (goBytes (createDiagram stateMap transMap)).length =
        (goBytes (createDiagram stateMap' transMap')).length ∧
      (lines (createDiagram stateMap transMap)).Perm (lines (createDiagram stateMap' transMap')) ∧
      (stateMap.length ≤ 1 → transMap.length ≤ 1 →
        createDiagram stateMap transMap = createDiagram stateMap' transMap') := by
  have hdata : (createDiagram stateMap transMap).data.Perm
      (createDiagram stateMap' transMap').data := by
    rw [createDiagram_data, createDiagram_data]
    exact (((List.Perm.refl _).append (hs.flatMap_right _)).append
      (ht.flatMap_right _)).append (List.Perm.refl _)
  refine ⟨⟨createDiagram_eq_assemble _ _, createDiagram_eq_assemble _ _,
    hs.map laneBlock, ht.map transGroup⟩, ?_, ?_, ?_, ?_⟩
  · exact hdata.length_eq
  · exact (hdata.flatMap_right _).length_eq
  · unfold lines
    rw [splitLines_createDiagram, splitLines_createDiagram]
    exact ((((List.Perm.refl _).append (hs.flatMap_right _)).append
      (ht.flatMap_right _)).append (List.Perm.refl _)).map _
  · intro h1 h2
    have e1 : stateMap = stateMap' := by
      match stateMap, h1, hs with
      | [], _, hs => exact (List.perm_nil.mp hs.symm).symm
      | [a], _, hs => exact (List.perm_singleton.mp hs.symm).symm
    have e2 : transMap = transMap' := by
      match transMap, h2, ht with
      | [], _, ht => exact (List.perm_nil.mp ht.symm).symm
      | [a], _, ht => exact (List.perm_singleton.mp ht.symm).symm
    rw [e1, e2]

/-- The order theorem at a view of two lanes, ranged over in its two orders: the two
texts differ and have the same lines up to order. -/
theorem createDiagram_order_witness :
    ([("Manager", ["Draft"]), ("Clerk", ["Open", "Closed"])] : GoMap String (List String)).Perm
        [("Clerk", ["Open", "Closed"]), ("Manager", ["Draft"])] ∧
      createDiagram [("Manager", ["Draft"]), ("Clerk", ["Open", "Closed"])]
          [("Manager", [{ From := "Draft", To := "Open", Action := "submit" }])] ≠
        createDiagram [("Clerk", ["Open", "Closed"]), ("Manager", ["Draft"])]
          [("Manager", [{ From := "Draft", To := "Open", Action := "submit" }])] ∧
      (lines (createDiagram [("Manager", ["Draft"]), ("Clerk", ["Open", "Closed"])]
          [("Manager", [{ From := "Draft", To := "Open", Action := "submit" }])])).Perm
        (lines (createDiagram [("Clerk", ["Open", "Closed"]), ("Manager", ["Draft"])]
          [("Manager", [{ From := "Draft", To := "Open", Action := "submit" }])])) :=
  ⟨List.Perm.swap _ _ [], by decide,
    (createDiagram_order [("Manager", ["Draft"]), ("Clerk", ["Open", "Closed"])]
      [("Clerk", ["Open", "Closed"]), ("Manager", ["Draft"])]
      [("Manager", [{ From := "Draft", To := "Open", Action := "submit" }])]
      [("Manager", [{ From := "Draft", To := "Open", Action := "submit" }])]
      (List.Perm.swap _ _ []) (List.Perm.refl _)).2.2.2.1⟩

/-! ## Lines of the text when no name has a newline -/

theorem termLines_cons_line (x b : List Char) (hx : '\n' ∉ x) :
    termLines (x ++ '\n' :: b) = x :: termLines b := by
  unfold termLines
  rw [splitLines_append_newline, splitLines_of_not_mem x hx]
  exact List.dropLast_append_of_ne_nil _ (splitLines_ne_nil b)

theorem termLines_nil : termLines [] = [] := by
  simp [termLines, splitLines]

theorem oneLine_laneOpenText (k : String) (hk : oneLine k) : '\n' ∉ (laneOpenText k).data := by
  unfold oneLine at hk
  simp [laneOpenText, String.data_append, hk]

theorem oneLine_statLineText (s : String) (hs : oneLine s) : '\n' ∉ (statLineText s).data := by
  unfold oneLine at hs
  simp [statLineText, String.data_append, hs]

theorem oneLine_transLineText (t : Transition)
    (ht : oneLine t.From ∧ oneLine t.To ∧ oneLine t.Action) :
    '\n' ∉ (transLineText t).data := by
  unfold oneLine at ht
  simp [transLineText, String.data_append, ht.1, ht.2.1, ht.2.2]

theorem termLines_statLines (states : List String) (tail : List Char)
    (h : ∀ s ∈ states, oneLine s) :
    termLines ((states.flatMap fun s => (statLine s).data) ++ tail) =
      states.map (fun s => (statLineText s).data) ++ termLines tail := by
  induction states with
  | nil => simp
  | cons s rest ih =>
    have e : (statLine s).data = (statLineText s).data ++ ['\n'] := by
      simp [statLine, statLineText, String.data_append]
    rw [List.flatMap_cons, e, List.append_assoc, List.append_assoc, List.singleton_append,
      termLines_cons_line _ _ (oneLine_statLineText s (h s (List.mem_cons_self _ _))),
      ih fun y hy => h y (List.mem_cons_of_mem _ hy)]
    simp

theorem termLines_transGroup (kv : String × List Transition)
    (h : ∀ t ∈ kv.2, oneLine t.From ∧ oneLine t.To ∧ oneLine t.Action) :
    termLines (transGroup kv).data = kv.2.map fun t => (transLineText t).data := by
  rw [transGroup_data]
  generalize kv.2 = ts at h
  induction ts with
  | nil => simp [termLines_nil]
  | cons t rest ih =>
    have e : (transLine t).data = (transLineText t).data ++ ['\n'] := by
      simp [transLine, transLineText, String.data_append]
    rw [List.flatMap_cons, e, List.append_assoc, List.singleton_append,
      termLines_cons_line _ _ (oneLine_transLineText t (h t (List.mem_cons_self _ _))),
      ih fun y hy => h y (List.mem_cons_of_mem _ hy)]
    simp

theorem termLines_laneBlock (kv : String × List String)
    (h : oneLine kv.1 ∧ ∀ s ∈ kv.2, oneLine s) :
    termLines (laneBlock kv).data =
      (laneOpenText kv.1).data :: (kv.2.map fun s => (statLineText s).data) ++ ["\x7d".data] := by
  have e : (laneLine kv.1).data = (laneOpenText kv.1).data ++ ['\n'] := by
    simp [laneLine, laneOpenText, String.data_append]
  have hfoot : termLines "\x7d\n".data = ["\x7d".data] := by decide
  rw [laneBlock_data, e, List.append_assoc, List.append_assoc, List.singleton_append,
    termLines_cons_line _ _ (oneLine_laneOpenText kv.1 h.1), termLines_statLines _ _ h.2, hfoot]
  rfl

/-- The lines of the text of `createDiagram` when no name has a newline: the
header, for each lane its opening line, its state lines and its closing line,
then the transition lines, then the footer. -/
theorem lines_createDiagram (stateMap : GoMap String (List String))
    (transMap : GoMap String (List Transition)) (h : viewOneLine stateMap transMap) :
    lines (createDiagram stateMap transMap) =
      ["actdiag \x7b"] ++
        (stateMap.flatMap fun kv => laneOpenText kv.1 :: kv.2.map statLineText ++ ["\x7d"]) ++
        (transMap.flatMap fun kv => kv.2.map transLineText) ++ ["\x7d"] := by
  have e1 : (stateMap.flatMap fun kv => termLines (laneBlock kv).data) =
      stateMap.flatMap fun kv =>
        (laneOpenText kv.1).data :: (kv.2.map fun s => (statLineText s).data) ++ ["\x7d".data] :=
    List.flatMap_congr fun kv hkv => termLines_laneBlock kv (h.1 kv hkv)
  have e2 : (transMap.flatMap fun kv => termLines (transGroup kv).data) =
      transMap.flatMap fun kv => kv.2.map fun t => (transLineText t).data :=
    List.flatMap_congr fun kv hkv => termLines_transGroup kv (h.2 kv hkv)
  unfold lines
  rw [splitLines_createDiagram, e1, e2]
  simp [List.map_flatMap, Function.comp_def]

/-! ## Classifying the lines -/

theorem last_of_singleton_suffix {c d : Char} {x : List Char} (h : [c] <:+ x ++ [d]) : c = d := by
  obtain ⟨t, ht⟩ := h
  have := congrArg List.getLast? ht
  simpa using this

theorem afterFirst_suffix (pat : List Char) (l r : List Char) (h : afterFirst pat l = some r) :
    r <:+ l := by
  induction l with
  | nil =>
    unfold afterFirst at h
    split at h
    · cases h; exact List.suffix_refl _
    · cases h
  | cons c cs ih =>
    unfold afterFirst at h
    split at h
    · cases h; exact List.drop_suffix _ _
    · exact (ih h).trans (List.suffix_cons _ _)

theorem afterFirst_append (pat x y : List Char) :
    ∃ z, afterFirst pat (x ++ pat ++ y) = some z ∧ y <:+ z := by
  induction x with
  | nil =>
    cases hl : pat ++ y with
    | nil =>
      have hp : pat = [] := (List.append_eq_nil.mp hl).1
      have hy : y = [] := (List.append_eq_nil.mp hl).2
      subst hp hy
      exact ⟨[], by simp [afterFirst], List.suffix_refl _⟩
    | cons c cs =>
      refine ⟨y, ?_, List.suffix_refl _⟩
      have hpre : pat.isPrefixOf (c :: cs) = true := by
        rw [← hl]; exact List.isPrefixOf_iff_prefix.mpr (List.prefix_append _ _)
      simp only [List.nil_append, hl, afterFirst, hpre, if_true]
      rw [← hl]; simp
  | cons c cs ih =>
    obtain ⟨z, hz, hyz⟩ := ih
    by_cases hpre : pat.isPrefixOf (c :: (cs ++ pat ++ y)) = true
    · refine ⟨(c :: (cs ++ pat ++ y)).drop pat.length, ?_, ?_⟩
      · show afterFirst pat (c :: (cs ++ pat ++ y)) = _
        rw [afterFirst, if_pos hpre]
      · have hle : pat.length ≤ (c :: (cs ++ pat)).length := by simp; omega
        have : (c :: (cs ++ pat ++ y)).drop pat.length =
            (c :: (cs ++ pat)).drop pat.length ++ y := by
          rw [← List.drop_append_of_le_length hle]; simp
        rw [this]
        exact List.suffix_append _ _
    · refine ⟨z, ?_, hyz⟩
      show afterFirst pat (c :: (cs ++ pat ++ y)) = _
      rw [afterFirst, if_neg hpre]
      exact hz

theorem isTransitionLine_last (l : String) (h : isTransitionLine l = true) :
    [']'] <:+ l.data := by
  unfold isTransitionLine at h
  simp only [Bool.and_eq_true] at h
  obtain ⟨_, h⟩ := h
  split at h
  · cases h
  · rename_i r hr
    split at h
    · cases h
    · rename_i r' hr'
      have h1 : "\"]".data <:+ r' := List.isSuffixOf_iff_suffix.mp h
      have h2 : [']'] <:+ "\"]".data := ⟨['"'], rfl⟩
      exact h2.trans (h1.trans ((afterFirst_suffix _ _ _ hr').trans
        ((afterFirst_suffix _ _ _ hr).trans (List.drop_suffix _ _))))

theorem isLaneOpen_laneOpenText (k : String) : isLaneOpen (laneOpenText k) = true := by
  simp only [isLaneOpen, Bool.and_eq_true, decide_eq_true_eq]
  refine ⟨⟨List.isPrefixOf_iff_prefix.mpr ⟨k.data ++ "\" \x7b".data, ?_⟩,
    List.isSuffixOf_iff_suffix.mpr ⟨"lane \"".data ++ k.data, ?_⟩⟩, ?_⟩
  · simp [laneOpenText, String.data_append]
  · simp [laneOpenText, String.data_append]
  · simp [laneOpenText, String.data_append]

theorem isStateLine_statLineText (s : String) : isStateLine (statLineText s) = true := by
  simp only [isStateLine, Bool.and_eq_true, decide_eq_true_eq]
  refine ⟨⟨List.isPrefixOf_iff_prefix.mpr ⟨s.data ++ "\"".data, ?_⟩,
    List.isSuffixOf_iff_suffix.mpr ⟨"\t\"".data ++ s.data, ?_⟩⟩, ?_⟩
  · simp [statLineText, String.data_append]
  · simp [statLineText, String.data_append]
  · simp [statLineText, String.data_append]

theorem isTransitionLine_transLineText (t : Transition) :
    isTransitionLine (transLineText t) = true := by
  have hd : (transLineText t).data =
      '\t' :: '"' :: (t.From.data ++ "\" -> \"".data ++
        (t.To.data ++ "\" [label = \"".data ++ (t.Action.data ++ "\"]".data))) := by
    simp [transLineText, String.data_append]
  obtain ⟨z, hz, hyz⟩ := afterFirst_append "\" -> \"".data t.From.data
    (t.To.data ++ "\" [label = \"".data ++ (t.Action.data ++ "\"]".data))
  obtain ⟨w, hw⟩ := hyz
  obtain ⟨z', hz', hyz'⟩ := afterFirst_append "\" [label = \"".data (w ++ t.To.data)
    (t.Action.data ++ "\"]".data)
  have hz2 : afterFirst "\" [label = \"".data z = some z' := by
    rw [← hw, ← hz']; simp
  have hsuf : "\"]".data <:+ z' := (List.suffix_append _ _).trans hyz'
  unfold isTransitionLine
  rw [hd]
  simp only [List.drop_succ_cons, List.drop_zero, hz, hz2,
    List.isSuffixOf_iff_suffix.mpr hsuf, Bool.and_true]
  simp [List.isPrefixOf]

theorem isLaneOpen_statLineText (s : String) : isLaneOpen (statLineText s) = false := by
  simp [isLaneOpen, statLineText, String.data_append, List.isPrefixOf]

theorem isLaneOpen_transLineText (t : Transition) : isLaneOpen (transLineText t) = false := by
  simp [isLaneOpen, transLineText, String.data_append, List.isPrefixOf]

theorem isStateLine_laneOpenText (k : String) : isStateLine (laneOpenText k) = false := by
  simp [isStateLine, laneOpenText, String.data_append, List.isPrefixOf]

theorem isTransitionLine_laneOpenText (k : String) :
    isTransitionLine (laneOpenText k) = false := by
  simp [isTransitionLine, laneOpenText, String.data_append, List.isPrefixOf]

theorem isStateLine_transLineText (t : Transition) : isStateLine (transLineText t) = false := by
  cases hb : isStateLine (transLineText t) with
  | false => rfl
  | true =>
    simp only [isStateLine, Bool.and_eq_true, decide_eq_true_eq] at hb
    have h1 : ['"'] <:+ (transLineText t).data := List.isSuffixOf_iff_suffix.mp hb.1.2
    have hd : (transLineText t).data =
        ("\t\"".data ++ t.From.data ++ "\" -> \"".data ++ t.To.data ++
          "\" [label = \"".data ++ t.Action.data ++ ['"']) ++ [']'] := by
      simp [transLineText, String.data_append]
    rw [hd] at h1
    exact absurd (last_of_singleton_suffix h1) (by decide)

theorem isTransitionLine_statLineText (s : String) :
    isTransitionLine (statLineText s) = false := by
  cases hb : isTransitionLine (statLineText s) with
  | false => rfl
  | true =>
    have h1 := isTransitionLine_last _ hb
    have hd : (statLineText s).data = ("\t\"".data ++ s.data) ++ ['"'] := by
      simp [statLineText, String.data_append]
    rw [hd] at h1
    exact absurd (last_of_singleton_suffix h1) (by decide)

/-! ## The classifiers say what they are meant to say -/

theorem eq_append_of_prefix_suffix (p s d : List Char) (hp : p <+: d) (hs : s <:+ d)
    (hlen : p.length + s.length ≤ d.length) : ∃ k, d = p ++ k ++ s := by
  obtain ⟨r, hr⟩ := hp
  obtain ⟨u, hu⟩ := hs
  have h : p ++ r = u ++ s := hr.trans hu.symm
  rcases List.append_eq_append_iff.mp h with ⟨a, hua, _⟩ | ⟨c, hpc, hsc⟩
  · exact ⟨a, by rw [← hu, hua]⟩
  · have hc : c = [] := by
      have h1 := congrArg List.length hpc
      have h2 := congrArg List.length hsc
      have h3 := congrArg List.length hr
      simp only [List.length_append] at h1 h2 h3
      exact List.length_eq_zero.mp (by omega)
    subst hc
    refine ⟨[], ?_⟩
    simp only [List.append_nil] at hpc
    rw [← hu, hpc]
    simp

theorem afterFirst_sound (pat l r : List Char) (h : afterFirst pat l = some r) :
    ∃ x, l = x ++ pat ++ r := by
  induction l with
  | nil =>
    unfold afterFirst at h
    split at h
    · rename_i hp
      cases h
      exact ⟨[], by simp [hp]⟩
    · cases h
  | cons c cs ih =>
    unfold afterFirst at h
    split at h
    · rename_i hp
      cases h
      obtain ⟨t, ht⟩ := List.isPrefixOf_iff_prefix.mp hp
      refine ⟨[], ?_⟩
      rw [← ht]
      simp
    · obtain ⟨x, hx⟩ := ih h
      exact ⟨c :: x, by rw [hx]; simp⟩

/-- A line opens a lane exactly when it is `lane "<role>" {` for some role. -/
theorem isLaneOpen_iff (l : String) : isLaneOpen l = true ↔ ∃ k, l = laneOpenText k := by
  constructor
  · intro h
    simp only [isLaneOpen, Bool.and_eq_true, decide_eq_true_eq] at h
    obtain ⟨k, hk⟩ := eq_append_of_prefix_suffix _ _ _ (List.isPrefixOf_iff_prefix.mp h.1.1)
      (List.isSuffixOf_iff_suffix.mp h.1.2) h.2
    exact ⟨String.mk k, String.ext (by simp [laneOpenText, String.data_append, hk])⟩
  · rintro ⟨k, rfl⟩
    exact isLaneOpen_laneOpenText k

/-- A line is a state line exactly when it is a tab and a name in double quotes. -/
theorem isStateLine_iff (l : String) : isStateLine l = true ↔ ∃ s, l = statLineText s := by
  constructor
  · intro h
    simp only [isStateLine, Bool.and_eq_true, decide_eq_true_eq] at h
    obtain ⟨k, hk⟩ := eq_append_of_prefix_suffix _ _ _ (List.isPrefixOf_iff_prefix.mp h.1.1)
      (List.isSuffixOf_iff_suffix.mp h.1.2) h.2
    exact ⟨String.mk k, String.ext (by simp [statLineText, String.data_append, hk])⟩
  · rintro ⟨s, rfl⟩
    exact isStateLine_statLineText s

/-- A line is a transition line exactly when it is
`<tab>"<from>" -> "<to>" [label = "<action>"]` for some transition. -/
theorem isTransitionLine_iff (l : String) :
    isTransitionLine l = true ↔ ∃ t, l = transLineText t := by
  constructor
  · intro h
    unfold isTransitionLine at h
    simp only [Bool.and_eq_true] at h
    obtain ⟨hp, h⟩ := h
    split at h
    · cases h
    · rename_i r hr
      split at h
      · cases h
      · rename_i r' hr'
        obtain ⟨d, hd⟩ := List.isPrefixOf_iff_prefix.mp hp
        obtain ⟨a, ha⟩ := List.isSuffixOf_iff_suffix.mp h
        obtain ⟨f, hf⟩ := afterFirst_sound _ _ _ hr
        obtain ⟨t, ht⟩ := afterFirst_sound _ _ _ hr'
        have hdrop : l.data.drop 2 = d := by rw [← hd]; rfl
        refine ⟨{ From := String.mk f, To := String.mk t, Action := String.mk a }, String.ext ?_⟩
        rw [← hd, ← hdrop, hf, ht, ← ha]
        simp [transLineText, String.data_append]
  · rintro ⟨t, rfl⟩
    exact isTransitionLine_transLineText t

/-! ## Counting the lines -/

theorem countP_map_of_true {α β : Type} (p : β → Bool) (f : α → β) (l : List α)
    (h : ∀ x, p (f x) = true) : (l.map f).countP p = l.length := by
  induction l with
  | nil => rfl
  | cons x rest ih => simp [List.countP_cons, h, ih]

theorem countP_map_of_false {α β : Type} (p : β → Bool) (f : α → β) (l : List α)
    (h : ∀ x, p (f x) = false) : (l.map f).countP p = 0 := by
  induction l with
  | nil => rfl
  | cons x rest ih => simp [List.countP_cons, h, ih]

theorem filter_map_of_false {α β : Type} (p : β → Bool) (f : α → β) (l : List α)
    (h : ∀ x, p (f x) = false) : (l.map f).filter p = [] := by
  induction l with
  | nil => rfl
  | cons x rest ih => simp [List.filter_cons, h, ih]

theorem filter_isLaneOpen_blocks (stateMap : GoMap String (List String)) :
    (stateMap.flatMap fun kv => laneOpenText kv.1 :: kv.2.map statLineText ++ ["\x7d"]).filter
        isLaneOpen = stateMap.map fun kv => laneOpenText kv.1 := by
  have hfoot : isLaneOpen "\x7d" = false := by decide
  induction stateMap with
  | nil => rfl
  | cons kv rest ih =>
    rw [List.flatMap_cons, List.filter_append, ih]
    simp [List.filter_cons, isLaneOpen_laneOpenText,
      filter_map_of_false _ _ _ isLaneOpen_statLineText, hfoot]

theorem filter_isLaneOpen_groups (transMap : GoMap String (List Transition)) :
    (transMap.flatMap fun kv => kv.2.map transLineText).filter isLaneOpen = [] := by
  induction transMap with
  | nil => rfl
  | cons kv rest ih =>
    rw [List.flatMap_cons, List.filter_append, ih,
      filter_map_of_false _ _ _ isLaneOpen_transLineText]
    rfl

theorem countP_isStateLine_blocks (stateMap : GoMap String (List String)) :
    (stateMap.flatMap fun kv => laneOpenText kv.1 :: kv.2.map statLineText ++ ["\x7d"]).countP
        isStateLine = totalStates stateMap := by
  have hfoot : isStateLine "\x7d" = false := by decide
  induction stateMap with
  | nil => rfl
  | cons kv rest ih =>
    rw [List.flatMap_cons, List.countP_append, ih]
    simp [List.countP_cons, isStateLine_laneOpenText,
      countP_map_of_true _ _ _ isStateLine_statLineText, hfoot, totalStates]

theorem countP_isStateLine_groups (transMap : GoMap String (List Transition)) :
    (transMap.flatMap fun kv => kv.2.map transLineText).countP isStateLine = 0 := by
  induction transMap with
  | nil => rfl
  | cons kv rest ih =>
    rw [List.flatMap_cons, List.countP_append, ih,
      countP_map_of_false _ _ _ isStateLine_transLineText]

theorem countP_isTransitionLine_blocks (stateMap : GoMap String (List String)) :
    (stateMap.flatMap fun kv => laneOpenText kv.1 :: kv.2.map statLineText ++ ["\x7d"]).countP
        isTransitionLine = 0 := by
  have hfoot : isTransitionLine "\x7d" = false := by decide
  induction stateMap with
  | nil => rfl
  | cons kv rest ih =>
    rw [List.flatMap_cons, List.countP_append, ih]
    simp [List.countP_cons, isTransitionLine_laneOpenText,
      countP_map_of_false _ _ _ isTransitionLine_statLineText, hfoot]

theorem countP_isTransitionLine_groups (transMap : GoMap String (List Transition)) :
    (transMap.flatMap fun kv => kv.2.map transLineText).countP isTransitionLine =
      totalTransitions transMap := by
  induction transMap with
  | nil => rfl
  | cons kv rest ih =>
    rw [List.flatMap_cons, List.countP_append, ih,
      countP_map_of_true _ _ _ isTransitionLine_transLineText]
    simp [totalTransitions]

theorem statLineText_ne_close (s : String) : statLineText s ≠ "\x7d" := by
  intro h
  have := congrArg String.data h
  simp [statLineText, String.data_append] at this

theorem transLineText_ne_close (t : Transition) : transLineText t ≠ "\x7d" := by
  intro h
  have := congrArg String.data h
  simp [transLineText, String.data_append] at this

theorem laneOpenText_ne_close (k : String) : laneOpenText k ≠ "\x7d" := by
  intro h
  have := congrArg String.data h
  simp [laneOpenText, String.data_append] at this

theorem countLaneBlocks_statLines (inLane : Bool) (states : List String) (rest : List String) :
    countLaneBlocks inLane (states.map statLineText ++ rest) = countLaneBlocks inLane rest := by
  induction states with
  | nil => rfl
  | cons s ss ih =>
    rw [List.map_cons, List.cons_append, countLaneBlocks,
      if_neg (by simp [isLaneOpen_statLineText]), if_neg (statLineText_ne_close s), ih]

theorem countLaneBlocks_transLines (inLane : Bool) (ts : List Transition) (rest : List String) :
    countLaneBlocks inLane (ts.map transLineText ++ rest) = countLaneBlocks inLane rest := by
  induction ts with
  | nil => rfl
  | cons t tt ih =>
    rw [List.map_cons, List.cons_append, countLaneBlocks,
      if_neg (by simp [isLaneOpen_transLineText]), if_neg (transLineText_ne_close t), ih]

/-- Each lane block of the renderer counts as one block. -/
theorem countLaneBlocks_blocks (inLane : Bool) (stateMap : GoMap String (List String))
    (rest : List String) :
    countLaneBlocks inLane
        ((stateMap.flatMap fun kv =>
          laneOpenText kv.1 :: kv.2.map statLineText ++ ["\x7d"]) ++ rest) =
      stateMap.length + countLaneBlocks (inLane && stateMap.isEmpty) rest := by
  induction stateMap generalizing inLane with
  | nil => simp
  | cons kv more ih =>
    rw [List.flatMap_cons, List.append_assoc, List.cons_append, List.cons_append,
      countLaneBlocks, if_pos (isLaneOpen_laneOpenText kv.1), List.append_assoc,
      countLaneBlocks_statLines, List.singleton_append, countLaneBlocks]
    have hfoot : isLaneOpen "\x7d" = false := by decide
    rw [if_neg (by simp [hfoot]), if_pos rfl, ih]
    simp
    omega

theorem countLaneBlocks_groups (inLane : Bool) (transMap : GoMap String (List Transition))
    (rest : List String) :
    countLaneBlocks inLane ((transMap.flatMap fun kv => kv.2.map transLineText) ++ rest) =
      countLaneBlocks inLane rest := by
  induction transMap with
  | nil => rfl
  | cons kv more ih =>
    rw [List.flatMap_cons, List.append_assoc, countLaneBlocks_transLines, ih]

/-- C5, amended. Lane count of the renderer: when no role, state name or
transition field has a newline character, the lines of the text are the header,
then for each key of `stateMap`, in the order of the range, one lane block (the
line `lane "<role>" {`, the state lines of the role, the closing line `}`), then
the transition lines and the footer; so the text has exactly one lane block,
opened and closed, per key of `stateMap`, and no other line opens a lane. -/
theorem createDiagram_lanes (stateMap : GoMap String (List String))
    (transMap : GoMap String (List Transition)) (h : viewOneLine stateMap transMap) :
    lines (createDiagram stateMap transMap) =
        ["actdiag \x7b"] ++
          (stateMap.flatMap fun kv =>
            laneOpenText kv.1 :: kv.2.map statLineText ++ ["\x7d"]) ++
          (transMap.flatMap fun kv => kv.2.map transLineText) ++ ["\x7d"] ∧
      laneBlockCount (createDiagram stateMap transMap) = (GoMap.keys stateMap).length ∧
      (lines (createDiagram stateMap transMap)).filter isLaneOpen =
        (GoMap.keys stateMap).map laneOpenText ∧
      laneCount (createDiagram stateMap transMap) = (GoMap.keys stateMap).length := by
  have hhead : isLaneOpen "actdiag \x7b" = false := by decide
  have hfoot : isLaneOpen "\x7d" = false := by decide
  have hl := lines_createDiagram _ _ h
  have hf : (lines (createDiagram stateMap transMap)).filter isLaneOpen =
      (GoMap.keys stateMap).map laneOpenText := by
    rw [hl]
    simp only [List.filter_append, filter_isLaneOpen_blocks, filter_isLaneOpen_groups]
    simp [List.filter_cons, hhead, hfoot, GoMap.keys]
  refine ⟨hl, ?_, hf, ?_⟩
  · have hne : ("actdiag \x7b" : String) ≠ "\x7d" := by decide
    rw [laneBlockCount, hl, List.append_assoc, List.append_assoc, List.singleton_append,
      countLaneBlocks, if_neg (by simp [hhead]), if_neg hne, countLaneBlocks_blocks,
      countLaneBlocks_groups]
    simp [countLaneBlocks, hfoot, GoMap.keys]
  · rw [laneCount, List.countP_eq_length_filter, hf]
    simp

/-- C6, amended. Renderer well-formedness: for every view the text begins with
the header `actdiag {` and a newline and ends with the footer; and when no role,
state name or transition field has a newline character it has as many state
lines as there are state names over all buckets of `stateMap` and as many
transition lines as there are transitions over all buckets of `transMap`. -/
theorem createDiagram_wellformed (stateMap : GoMap String (List String))
    (transMap : GoMap String (List Transition)) :
    (∃ body, createDiagram stateMap transMap = "actdiag \x7b\n" ++ body ++ "\x7d") ∧
      (viewOneLine stateMap transMap →
        stateLineCount (createDiagram stateMap transMap) = totalStates stateMap ∧
        transitionLineCount (createDiagram stateMap transMap) = totalTransitions transMap) := by
  refine ⟨⟨concat (stateMap.map laneBlock) ++ concat (transMap.map transGroup), ?_⟩,
    fun h => ⟨?_, ?_⟩⟩
  · rw [createDiagram_eq_assemble]
    apply String.ext
    simp [assemble, String.data_append]
  · have hhead : isStateLine "actdiag \x7b" = false := by decide
    have hfoot : isStateLine "\x7d" = false := by decide
    rw [stateLineCount, lines_createDiagram _ _ h]
    simp only [List.countP_append, countP_isStateLine_blocks, countP_isStateLine_groups]
    simp [List.countP_cons, hhead, hfoot]
  · have hhead : isTransitionLine "actdiag \x7b" = false := by decide
    have hfoot : isTransitionLine "\x7d" = false := by decide
    rw [transitionLineCount, lines_createDiagram _ _ h]
    simp only [List.countP_append, countP_isTransitionLine_blocks,
      countP_isTransitionLine_groups]
    simp [List.countP_cons, hhead, hfoot]

/-- C5 as stated fails: a role that has transitions and no state gets no lane
block, so a view with one role has no lane block; and a state name with newlines
can close its lane and open another, so a view with one role has two. -/
theorem createDiagram_lanes_counterexample :
    (roleCount [] [("Manager", [{ From := "Draft", To := "Approved", Action := "approve" }])] = 1 ∧
      laneCount (createDiagram []
        [("Manager", [{ From := "Draft", To := "Approved", Action := "approve" }])]) = 0 ∧
      laneBlockCount (createDiagram []
        [("Manager", [{ From := "Draft", To := "Approved", Action := "approve" }])]) = 0) ∧
    (roleCount [("Manager", ["Draft\"\n\x7d\nlane \"Ghost\" \x7b\n\t\"Review"])] [] = 1 ∧
      laneCount (createDiagram
        [("Manager", ["Draft\"\n\x7d\nlane \"Ghost\" \x7b\n\t\"Review"])] []) = 2 ∧
      laneBlockCount (createDiagram
        [("Manager", ["Draft\"\n\x7d\nlane \"Ghost\" \x7b\n\t\"Review"])] []) = 2) := by
  decide

/-- C6 as stated fails: a state name with a newline makes two state lines out
of one state. -/
theorem createDiagram_wellformed_counterexample :
    totalStates [("Manager", ["Draft\"\n\t\"Ghost"])] = 1 ∧
      stateLineCount (createDiagram [("Manager", ["Draft\"\n\t\"Ghost"])] []) = 2 := by
  decide

/-- The lane count at a view of two lanes, one of them of the empty role, and a role
that has a transition only. -/
theorem createDiagram_lanes_witness :
    viewOneLine [("Manager", ["Draft", "Approved"]), ("", ["Cancelled"])]
        [("Clerk", [{ From := "Draft", To := "Approved", Action := "approve" }])] ∧
      lines (createDiagram [("Manager", ["Draft", "Approved"]), ("", ["Cancelled"])]
        [("Clerk", [{ From := "Draft", To := "Approved", Action := "approve" }])]) =
        ["actdiag \x7b", "lane \"Manager\" \x7b", "\t\"Draft\"", "\t\"Approved\"", "\x7d",
          "lane \"\" \x7b", "\t\"Cancelled\"", "\x7d",
          "\t\"Draft\" -> \"Approved\" [label = \"approve\"]", "\x7d"] ∧
      laneBlockCount (createDiagram [("Manager", ["Draft", "Approved"]), ("", ["Cancelled"])]
        [("Clerk", [{ From := "Draft", To := "Approved", Action := "approve" }])]) = 2 ∧
      (lines (createDiagram [("Manager", ["Draft", "Approved"]), ("", ["Cancelled"])]
        [("Clerk", [{ From := "Draft", To := "Approved", Action := "approve" }])])).filter
          isLaneOpen = ["lane \"Manager\" \x7b", "lane \"\" \x7b"] ∧
      laneCount (createDiagram [("Manager", ["Draft", "Approved"]), ("", ["Cancelled"])]
        [("Clerk", [{ From := "Draft", To := "Approved", Action := "approve" }])]) = 2 :=
  ⟨by simp [viewOneLine, oneLine],
    createDiagram_lanes [("Manager", ["Draft", "Approved"]), ("", ["Cancelled"])]
      [("Clerk", [{ From := "Draft", To := "Approved", Action := "approve" }])]
      (by simp [viewOneLine, oneLine])⟩

/-- The line counts at a view of three states and one transition. -/
theorem createDiagram_wellformed_witness :
    viewOneLine [("Manager", ["Draft", "Approved"]), ("", ["Cancelled"])]
        [("Clerk", [{ From := "Draft", To := "Approved", Action := "approve" }])] ∧
      stateLineCount (createDiagram [("Manager", ["Draft", "Approved"]), ("", ["Cancelled"])]
        [("Clerk", [{ From := "Draft", To := "Approved", Action := "approve" }])]) = 3 ∧
      transitionLineCount (createDiagram [("Manager", ["Draft", "Approved"]), ("", ["Cancelled"])]
        [("Clerk", [{ From := "Draft", To := "Approved", Action := "approve" }])]) = 1 :=
  ⟨by simp [viewOneLine, oneLine],
    (createDiagram_wellformed [("Manager", ["Draft", "Approved"]), ("", ["Cancelled"])]
      [("Clerk", [{ From := "Draft", To := "Approved", Action := "approve" }])]).2
      (by simp [viewOneLine, oneLine])⟩

/-! ## URL-safe base64 -/

theorem encodeChar_spec :
    ∀ i : Fin 64, encodeChar i ∈ encodeURL ∧ decodeChar (encodeChar i) = some i.val := by
  decide

theorem encodeURL_spec :
    ∀ c ∈ encodeURL, isTokenChar c = true ∧ c ≠ '=' ∧ c ≠ '+' ∧ c ≠ '/' := by
  decide

theorem encodeChar_mem (i : Nat) (h : i < 64) : encodeChar i ∈ encodeURL :=
  (encodeChar_spec ⟨i, h⟩).1

theorem decodeChar_encodeChar (i : Nat) (h : i < 64) : decodeChar (encodeChar i) = some i :=
  (encodeChar_spec ⟨i, h⟩).2

theorem encodeChar_ne_padChar (i : Nat) (h : i < 64) : encodeChar i ≠ padChar :=
  (encodeURL_spec _ (encodeChar_mem i h)).2.1

theorem UInt8.ofNat_of_eq_toNat (a : UInt8) (n : Nat) (h : n = a.toNat) : UInt8.ofNat n = a := by
  subst h
  cases a with
  | mk v => simp [UInt8.ofNat, UInt8.toNat]

/-- Decoding what `base64.URLEncoding.EncodeToString` returns gives the bytes back. -/
theorem base64URLDecode_encode (bytes : List UInt8) :
    base64URLDecode (base64URLEncode bytes) = some bytes := by
  induction bytes using base64URLEncode.induct with
  | case1 => rfl
  | case2 a =>
    have ha := a.toNat_lt
    have h0 : a.toNat * 65536 / 262144 % 64 < 64 := Nat.mod_lt _ (by decide)
    have h1 : a.toNat * 65536 / 4096 % 64 < 64 := Nat.mod_lt _ (by decide)
    simp only [base64URLEncode, base64URLDecode, decodeChar_encodeChar _ h0,
      decodeChar_encodeChar _ h1]
    simp only [if_true, ne_eq, not_true_eq_false, if_false]
    congr 2
    exact UInt8.ofNat_of_eq_toNat _ _ (by omega)
  | case3 a b =>
    have ha := a.toNat_lt
    have hb := b.toNat_lt
    have h0 : (a.toNat * 65536 + b.toNat * 256) / 262144 % 64 < 64 := Nat.mod_lt _ (by decide)
    have h1 : (a.toNat * 65536 + b.toNat * 256) / 4096 % 64 < 64 := Nat.mod_lt _ (by decide)
    have h2 : (a.toNat * 65536 + b.toNat * 256) / 64 % 64 < 64 := Nat.mod_lt _ (by decide)
    simp only [base64URLEncode, base64URLDecode, decodeChar_encodeChar _ h0,
      decodeChar_encodeChar _ h1, decodeChar_encodeChar _ h2]
    simp only [if_true, ne_eq, not_true_eq_false, if_false, encodeChar_ne_padChar _ h2]
    congr 2
    · exact UInt8.ofNat_of_eq_toNat _ _ (by omega)
    · congr 1
      exact UInt8.ofNat_of_eq_toNat _ _ (by omega)
  | case4 a b c rest ih =>
    have ha := a.toNat_lt
    have hb := b.toNat_lt
    have hc := c.toNat_lt
    have h0 : (a.toNat * 65536 + b.toNat * 256 + c.toNat) / 262144 % 64 < 64 :=
      Nat.mod_lt _ (by decide)
    have h1 : (a.toNat * 65536 + b.toNat * 256 + c.toNat) / 4096 % 64 < 64 :=
      Nat.mod_lt _ (by decide)
    have h2 : (a.toNat * 65536 + b.toNat * 256 + c.toNat) / 64 % 64 < 64 :=
      Nat.mod_lt _ (by decide)
    have h3 : (a.toNat * 65536 + b.toNat * 256 + c.toNat) % 64 < 64 := Nat.mod_lt _ (by decide)
    simp only [base64URLEncode, base64URLDecode, decodeChar_encodeChar _ h0,
      decodeChar_encodeChar _ h1, decodeChar_encodeChar _ h2, decodeChar_encodeChar _ h3, ih]
    simp only [if_false, encodeChar_ne_padChar _ h3]
    congr 2
    · exact UInt8.ofNat_of_eq_toNat _ _ (by omega)
    · congr 1
      · exact UInt8.ofNat_of_eq_toNat _ _ (by omega)
      · congr 1
        exact UInt8.ofNat_of_eq_toNat _ _ (by omega)

/-- What `base64.URLEncoding.EncodeToString` returns: characters of the alphabet,
then no, one or two padding characters, a multiple of four in all. -/
theorem base64URLEncode_shape (bytes : List UInt8) :
    ∃ body pad, base64URLEncode bytes = body ++ pad ∧ (∀ c ∈ body, c ∈ encodeURL) ∧
      (pad = [] ∨ pad = [padChar] ∨ pad = [padChar, padChar]) ∧
      (base64URLEncode bytes).length % 4 = 0 := by
  induction bytes using base64URLEncode.induct with
  | case1 => exact ⟨[], [], rfl, by simp, Or.inl rfl, rfl⟩
  | case2 a =>
    refine ⟨[encodeChar (a.toNat * 65536 / 262144 % 64), encodeChar (a.toNat * 65536 / 4096 % 64)],
      [padChar, padChar], rfl, ?_, Or.inr (Or.inr rfl), by simp [base64URLEncode]⟩
    intro c hc
    simp only [List.mem_cons, List.mem_singleton, List.not_mem_nil, or_false] at hc
    rcases hc with rfl | rfl <;> exact encodeChar_mem _ (Nat.mod_lt _ (by decide))
  | case3 a b =>
    refine ⟨[encodeChar ((a.toNat * 65536 + b.toNat * 256) / 262144 % 64),
      encodeChar ((a.toNat * 65536 + b.toNat * 256) / 4096 % 64),
      encodeChar ((a.toNat * 65536 + b.toNat * 256) / 64 % 64)],
      [padChar], rfl, ?_, Or.inr (Or.inl rfl), by simp [base64URLEncode]⟩
    intro c hc
    simp only [List.mem_cons, List.mem_singleton, List.not_mem_nil, or_false] at hc
    rcases hc with rfl | rfl | rfl <;> exact encodeChar_mem _ (Nat.mod_lt _ (by decide))
  | case4 a b c rest ih =>
    obtain ⟨body, pad, he, hbody, hpad, hlen⟩ := ih
    refine ⟨encodeChar ((a.toNat * 65536 + b.toNat * 256 + c.toNat) / 262144 % 64) ::
      encodeChar ((a.toNat * 65536 + b.toNat * 256 + c.toNat) / 4096 % 64) ::
      encodeChar ((a.toNat * 65536 + b.toNat * 256 + c.toNat) / 64 % 64) ::
      encodeChar ((a.toNat * 65536 + b.toNat * 256 + c.toNat) % 64) :: body, pad, ?_, ?_, hpad, ?_⟩
    · simp only [base64URLEncode, he, List.cons_append]
    · intro x hx
      simp only [List.mem_cons] at hx
      rcases hx with rfl | rfl | rfl | rfl | hx
      · exact encodeChar_mem _ (Nat.mod_lt _ (by decide))
      · exact encodeChar_mem _ (Nat.mod_lt _ (by decide))
      · exact encodeChar_mem _ (Nat.mod_lt _ (by decide))
      · exact encodeChar_mem _ (Nat.mod_lt _ (by decide))
      · exact hbody x hx
    · simp only [base64URLEncode, List.length_cons]
      omega

/-! ## `encodeKroki` -/

theorem encodeKroki_eq (zlib : Zlib) (input : String) :
    encodeKroki zlib input =
      .ok (String.mk (base64URLEncode (zlib.compress 9 (goBytes input)))) := by
  rfl

/-- The base64 half of reading a token back: `encodeKroki` returns a token, and
URL-safe base64 decoding of the token gives the compressed stream. -/
theorem encodeKroki_base64 (zlib : Zlib) (input : String) :
    ∃ token, encodeKroki zlib input = .ok token ∧
      base64URLDecode token.data = some (zlib.compress 9 (goBytes input)) :=
  ⟨_, encodeKroki_eq zlib input, base64URLDecode_encode _⟩

/-- C7. The token is URL-safe: for every input text `encodeKroki` returns a
token whose characters are letters, digits, `-`, `_` or the padding `=`, never
`+` or `/`, with the padding (none, one or two characters) at the end only, and
whose length is a multiple of 4. -/
theorem encodeKroki_urlsafe (zlib : Zlib) (input : String) :
    ∃ token, encodeKroki zlib input = .ok token ∧
      (∀ c ∈ token.data, isTokenChar c = true ∧ c ≠ '+' ∧ c ≠ '/') ∧
      (∃ body pad, token.data = body ++ pad ∧ '=' ∉ body ∧
        (pad = [] ∨ pad = ['='] ∨ pad = ['=', '='])) ∧
      token.length % 4 = 0 := by
  obtain ⟨body, pad, he, hbody, hpad, hlen⟩ :=
    base64URLEncode_shape (zlib.compress 9 (goBytes input))
  refine ⟨_, encodeKroki_eq zlib input, ?_, ⟨body, pad, he, ?_, hpad⟩, hlen⟩
  · intro c hc
    simp only [he, List.mem_append] at hc
    rcases hc with hc | hc
    · have h := encodeURL_spec c (hbody c hc)
      exact ⟨h.1, h.2.2.1, h.2.2.2⟩
    · have hc' : c = '=' := by
        rcases hpad with rfl | rfl | rfl <;> simp [padChar] at hc <;> exact hc
      subst hc'
      decide
  · intro hmem
    exact (encodeURL_spec _ (hbody _ hmem)).2.1 rfl

end FrappeChart
